import Mathlib

/-
Verification development for the geojson-vt-cpp tile pyramid core
(src/src/geojsonvt.cpp).  The C++ code is shallowly embedded:

* `double` values are modelled as exact rationals, represented by the
  unnormalized fraction type `Frac` below (numerator / positive
  denominator over ℤ).  All comparisons the C++ code performs on doubles
  are modelled by the value-semantics comparisons `Frac.eqb` / `Frac.leb` /
  `Frac.ltb` (cross multiplication), never by representation equality.
  Every arithmetic operation the embedded code performs is exact in ℚ, so
  this models the real-number reading of the floating-point source.
* machine integers are modelled as ℕ / ℤ with explicit `% 2 ^ 32` where the
  C++ arithmetic is performed in 32-bit operands.
* the variant geometry tree is modelled at the two levels the tile pipeline
  actually produces and consumes: a geometry is a list of elements, each a
  bare point or a ring/line of points.
* code of this repository that is not under src/ (the Tile factory, the
  clipper, the Tile class defaults) is modelled from the spec; each such
  definition carries a doc comment starting with: Modelled from the spec.
-/

namespace GeoVT

/-- Exact rational numbers as unnormalized fractions with positive
denominator, used to embed the C++ `double` computations.  Kept
unnormalized so that all operations reduce by kernel computation. -/
structure Frac where
  num : ℤ
  den : ℤ
deriving DecidableEq

namespace Frac

/-- Embed an integer. -/
def ofInt (n : ℤ) : Frac := ⟨n, 1⟩

/-- Addition of fractions. -/
def add (a b : Frac) : Frac := ⟨a.num * b.den + b.num * a.den, a.den * b.den⟩

/-- Subtraction of fractions. -/
def sub (a b : Frac) : Frac := ⟨a.num * b.den - b.num * a.den, a.den * b.den⟩

/-- Multiplication of fractions. -/
def mul (a b : Frac) : Frac := ⟨a.num * b.num, a.den * b.den⟩

/-- Negation of a fraction. -/
def neg (a : Frac) : Frac := ⟨-a.num, a.den⟩

/-- Division of fractions; the denominator sign is normalized to stay
positive.  Division by a zero fraction yields 0 (the embedded code never
divides by zero on the paths the claims exercise; see spec section 4.C). -/
def div (a b : Frac) : Frac :=
  let n := a.num * b.den
  let d := a.den * b.num
  if d = 0 then ⟨0, 1⟩ else if d < 0 then ⟨-n, -d⟩ else ⟨n, d⟩

instance : Add Frac := ⟨add⟩
instance : Sub Frac := ⟨sub⟩
instance : Mul Frac := ⟨mul⟩
instance : Div Frac := ⟨div⟩
instance : Neg Frac := ⟨neg⟩

/-- Value equality (the C++ `==` on doubles), by cross multiplication. -/
def eqb (a b : Frac) : Bool := a.num * b.den == b.num * a.den

/-- Value comparison (the C++ `<=` on doubles); sound because denominators
are kept positive. -/
def leb (a b : Frac) : Bool := decide (a.num * b.den ≤ b.num * a.den)

/-- Value comparison (the C++ `<` on doubles). -/
def ltb (a b : Frac) : Bool := decide (a.num * b.den < b.num * a.den)

/-- Rounding of a nonnegative fraction to the nearest integer, halves up:
floor (n / d + 1 / 2). -/
def roundNN (n d : ℤ) : ℤ := (2 * n + d) / (2 * d)

/-- Rounding half away from zero, the behaviour of C++ `std::round`. -/
def round (a : Frac) : ℤ :=
  if 0 ≤ a.num then roundNN a.num a.den else -roundNN (-a.num) a.den

end Frac

/-- A projected point: normalized x, y plus the simplification importance
score stored in the z channel (spec section 3). -/
structure ProjectedPoint where
  x : Frac
  y : Frac
  z : Frac
deriving DecidableEq

/-- One element of a geometry container: a bare point, or a ring / line of
points.  This is the shape of every geometry the tile pipeline produces
(point features hold bare points; line and polygon features hold rings). -/
inductive GeomElem where
  | pt (p : ProjectedPoint)
  | ring (members : List ProjectedPoint)
deriving DecidableEq

/-- Feature kinds (spec section 3). -/
inductive FeatureType where
  | point
  | lineString
  | polygon
deriving DecidableEq

/-- A projected feature: kind, geometry container members, bounding box and
the minimal tolerance at which the feature still contributes geometry
(spec section 3; properties are opaque and never read by the core, so they
are omitted). -/
structure ProjectedFeature where
  type : FeatureType
  geometry : List GeomElem
  minX : Frac
  minY : Frac
  maxX : Frac
  maxY : Frac
  minTolerance : Frac
deriving DecidableEq

/-- An integer tile-space point (the int16 coordinates of the source,
without the unguarded narrowing, which the spec itself flags as
unspecified for out-of-range values). -/
structure TilePoint where
  x : ℤ
  y : ℤ
deriving DecidableEq

/-- One element of a tile feature's transformed geometry. -/
inductive TileGeomElem where
  | tpt (p : TilePoint)
  | tring (points : List TilePoint)
deriving DecidableEq

/-- An emitted tile feature: kind, geometry still in normalized space, and
the integer tile-space geometry filled in by the transform step. -/
structure TileFeature where
  type : FeatureType
  geometry : List GeomElem
  tileGeometry : List TileGeomElem
deriving DecidableEq

/-- The fixed tile resolution (spec section 6). -/
def extentQ : Frac := Frac.ofInt 4096

/-- The fixed tile buffer (spec section 6). -/
def bufferQ : Frac := Frac.ofInt 64

/-- The key encoding of GeoJSONVT::toID as the C++ code computes it:
`(((1 << z) * y + x) * 32) + z` where `1 << z` is a 32-bit `int`, so the
whole expression is evaluated in `uint32_t` arithmetic (mod 2 ^ 32) before
being widened to the `uint64_t` return type. -/
def toID (z x y : ℕ) : ℕ := ((2 ^ z * y + x) * 32 + z) % 2 ^ 32

/-- The key encoding as the spec states it (section 6): the mathematical
value `((2^z) * y + x) * 32 + z`, which fits in 64 bits for z ≤ 24.  This
is the spec-side definition used to compare against the code's `toID`. -/
def toIDSpec (z x y : ℕ) : ℕ := (2 ^ z * y + x) * 32 + z

/-- Decoding of a spec key back to (z, x, y). -/
def decodeID (id : ℕ) : ℕ × ℕ × ℕ :=
  let z := id % 32
  let q := id / 32
  (z, q % 2 ^ z, q / 2 ^ z)

/-- Loop body of GeoJSONVT::isClippedSquare (source lines 304-310): scan the
ring members and fail as soon as one coordinate is on neither boundary
value. -/
def boundaryLoop (extent_ buffer_ : Frac) : List ProjectedPoint → Bool
  | [] => true
  | p :: rest =>
    if ((!(p.x.eqb (-buffer_)) && !(p.x.eqb (extent_ + buffer_))) ||
        (!(p.y.eqb (-buffer_)) && !(p.y.eqb (extent_ + buffer_)))) then false
    else boundaryLoop extent_ buffer_ rest

/-- GeoJSONVT::isClippedSquare (source lines 288-313).  The result is
`none` exactly where the C++ has undefined behaviour: `geometry.front()`
on an empty vector (the code only rejects `size() > 1`, so an empty
geometry reaches the access), and `get<ProjectedGeometryContainer>` on a
variant that holds a bare point. -/
def isClippedSquare (features : List TileFeature) (extent_ buffer_ : Frac) :
    Option Bool :=
  match features with
  | [f] =>
    if f.type ≠ FeatureType.polygon ∨ f.geometry.length > 1 then some false
    else
      match f.geometry with
      | [] => none
      | GeomElem.pt _ :: _ => none
      | GeomElem.ring ms :: _ => some (boundaryLoop extent_ buffer_ ms)
  | _ => some false

/-- A point lies on the buffered square boundary: each coordinate equals
the buffered minimum or the buffered maximum (spec sections 4.E and 8). -/
def onBoundary (extent_ buffer_ : Frac) (p : ProjectedPoint) : Prop :=
  (p.x.eqb (-buffer_) = true ∨ p.x.eqb (extent_ + buffer_) = true) ∧
  (p.y.eqb (-buffer_) = true ∨ p.y.eqb (extent_ + buffer_) = true)

/-- The spec's characterization of a clipped square tile: exactly one
feature, of polygon kind, with exactly one ring, all of whose vertices lie
on the buffered square boundary. -/
def clippedSquareSpec (features : List TileFeature) (extent_ buffer_ : Frac) :
    Prop :=
  ∃ f ms, features = [f] ∧ f.type = FeatureType.polygon ∧
    f.geometry = [GeomElem.ring ms] ∧ ∀ p ∈ ms, onBoundary extent_ buffer_ p

/-- Boolean form of onBoundary, used to relate the scanning loop to the
universally quantified spec statement. -/
def onBoundaryB (e b : Frac) (p : ProjectedPoint) : Bool :=
  (p.x.eqb (-b) || p.x.eqb (e + b)) && (p.y.eqb (-b) || p.y.eqb (e + b))

/-- GeoJSONVT::intersectX (source lines 320-327). -/
def intersectX (a b : ProjectedPoint) (x : Frac) : ProjectedPoint :=
  ⟨x, (x - a.x) * (b.y - a.y) / (b.x - a.x) + a.y, Frac.ofInt 1⟩

/-- GeoJSONVT::intersectY (source lines 329-336). -/
def intersectY (a b : ProjectedPoint) (y : Frac) : ProjectedPoint :=
  ⟨(y - a.y) * (b.x - a.x) / (b.y - a.y) + a.x, y, Frac.ofInt 1⟩

/-- Coordinate selector: axis 0 reads x, axis 1 reads y (the values the
source passes to Clip::clip). -/
def axisCoord (axis : ℕ) (p : ProjectedPoint) : Frac := if axis = 0 then p.x else p.y

/-- Half-plane membership: for le = true keep coord ≤ k, otherwise keep
coord ≥ k. -/
def halfIn (le : Bool) (k v : Frac) : Bool := if le then v.leb k else k.leb v

/-- Modelled from the spec: one half-plane pass of the LineString clipping
of Clip::clip (section 4.C; geojsonvt_clip.cpp is not under src/).  Walks
vertex pairs, keeps inside vertices, inserts the intersection point when a
segment crosses the boundary, and splits the line into pieces. -/
def clipLineHalf (le : Bool) (k scale : Frac) (axis : ℕ)
    (itf : ProjectedPoint → ProjectedPoint → Frac → ProjectedPoint) :
    List ProjectedPoint → List ProjectedPoint → List (List ProjectedPoint)
  | cur, a :: b :: rest =>
    let ain := halfIn le k (axisCoord axis a * scale)
    let bin := halfIn le k (axisCoord axis b * scale)
    if ain && bin then clipLineHalf le k scale axis itf (cur ++ [a]) (b :: rest)
    else if ain && !bin then
      (cur ++ [a, itf a b (k / scale)]) :: clipLineHalf le k scale axis itf [] (b :: rest)
    else if !ain && bin then
      clipLineHalf le k scale axis itf (cur ++ [itf a b (k / scale)]) (b :: rest)
    else clipLineHalf le k scale axis itf cur (b :: rest)
  | cur, [a] =>
    if halfIn le k (axisCoord axis a * scale) then [cur ++ [a]]
    else if cur.isEmpty then [] else [cur]
  | cur, [] => if cur.isEmpty then [] else [cur]

/-- Modelled from the spec: one Sutherland-Hodgman half-plane pass over a
closed ring (section 4.C): per edge, emit the entering intersection, inside
endpoints, and the leaving intersection, in traversal order. -/
def shClipEdges (le : Bool) (k scale : Frac) (axis : ℕ)
    (itf : ProjectedPoint → ProjectedPoint → Frac → ProjectedPoint) :
    List ProjectedPoint → List ProjectedPoint
  | a :: b :: rest =>
    let ain := halfIn le k (axisCoord axis a * scale)
    let bin := halfIn le k (axisCoord axis b * scale)
    (if bin then (if !ain then [itf a b (k / scale)] else []) ++ [b]
     else if ain then [itf a b (k / scale)] else []) ++
    shClipEdges le k scale axis itf (b :: rest)
  | [_] => []
  | [] => []

/-- Coordinate-value equality of two points (the double == of the code). -/
def pointEqb (p q : ProjectedPoint) : Bool := p.x.eqb q.x && p.y.eqb q.y

/-- Modelled from the spec: ring closing (section 3 invariant: a ring's
first and last point are equal). -/
def closeRing (ps : List ProjectedPoint) : List ProjectedPoint :=
  match ps with
  | [] => []
  | p :: _ =>
    match ps.getLast? with
    | some q => if pointEqb p q then ps else ps ++ [p]
    | none => ps

/-- Modelled from the spec: polygon-ring clipping to the slab [k1, k2]
(Sutherland-Hodgman on one axis, section 4.C), as the two successive
half-plane passes, re-closing the ring after each pass. -/
def clipRing (scale k1 k2 : Frac) (axis : ℕ)
    (itf : ProjectedPoint → ProjectedPoint → Frac → ProjectedPoint)
    (ring : List ProjectedPoint) : List ProjectedPoint :=
  let r1 := closeRing (shClipEdges false k1 scale axis itf ring)
  closeRing (shClipEdges true k2 scale axis itf r1)

/-- Modelled from the spec: LineString clipping to the slab [k1, k2] as the
two successive half-plane piece-splitting passes (section 4.C). -/
def clipLineSlab (scale k1 k2 : Frac) (axis : ℕ)
    (itf : ProjectedPoint → ProjectedPoint → Frac → ProjectedPoint)
    (ps : List ProjectedPoint) : List (List ProjectedPoint) :=
  (clipLineHalf false k1 scale axis itf [] ps).flatMap (clipLineHalf true k2 scale axis itf [])

/-- Modelled from the spec: per-feature clipping of Clip::clip (section
4.C): a feature whose bbox is entirely inside the slab is kept whole, one
entirely outside is dropped, anything else is clipped piecewise by kind;
rings with fewer than 4 points after clipping are silently dropped
(section 7), and features left without geometry are dropped. -/
def clipFeature (scale k1 k2 : Frac) (axis : ℕ)
    (itf : ProjectedPoint → ProjectedPoint → Frac → ProjectedPoint)
    (f : ProjectedFeature) : Option ProjectedFeature :=
  let minC := if axis = 0 then f.minX else f.minY
  let maxC := if axis = 0 then f.maxX else f.maxY
  if k1.leb (minC * scale) && (maxC * scale).leb k2 then some f
  else if (maxC * scale).ltb k1 || k2.ltb (minC * scale) then none
  else
    match f.type with
    | FeatureType.point =>
      let g := f.geometry.filter (fun el => match el with
        | GeomElem.pt p =>
          k1.leb (axisCoord axis p * scale) && (axisCoord axis p * scale).leb k2
        | GeomElem.ring _ => false)
      if g.isEmpty then none else some { f with geometry := g }
    | FeatureType.lineString =>
      let g := f.geometry.flatMap (fun el => match el with
        | GeomElem.pt _ => []
        | GeomElem.ring ps => (clipLineSlab scale k1 k2 axis itf ps).map GeomElem.ring)
      if g.isEmpty then none else some { f with geometry := g }
    | FeatureType.polygon =>
      let g := f.geometry.filterMap (fun el => match el with
        | GeomElem.pt _ => none
        | GeomElem.ring ps =>
          let r := clipRing scale k1 k2 axis itf ps
          if r.length < 4 then none else some (GeomElem.ring r))
      if g.isEmpty then none else some { f with geometry := g }

/-- Modelled from the spec: Clip::clip (section 4.C).  The last two
arguments are the bounding box of the whole feature set along the clip
axis (the tile min and max the source passes); a whole set inside the slab
is returned unchanged, a whole set outside yields the empty list. -/
def clip (features : List ProjectedFeature) (scale k1 k2 : Frac) (axis : ℕ)
    (itf : ProjectedPoint → ProjectedPoint → Frac → ProjectedPoint)
    (minAll maxAll : Frac) : List ProjectedFeature :=
  if k1.leb (minAll * scale) && (maxAll * scale).leb k2 then features
  else if (maxAll * scale).ltb k1 || k2.ltb (minAll * scale) then []
  else features.filterMap (clipFeature scale k1 k2 axis itf)

/-- Minimum of two fraction values. -/
def fmin (a b : Frac) : Frac := if a.leb b then a else b

/-- Maximum of two fraction values. -/
def fmax (a b : Frac) : Frac := if a.leb b then b else a

/-- The Tile record (spec section 3).  The tile class itself is not under
src/; the fields are the ones the source file reads and writes (features,
counters, source, bbox, z2, tx, ty, transformed).  Two extra ghost fields
instrument the builder for the invariant claims and influence nothing:
recursedG records whether the builder recursed through this cell at its
last processing, and zG records the z of that processing. -/
structure Tile where
  features : List TileFeature
  numPoints : ℕ
  numSimplified : ℕ
  numFeatures : ℕ
  source : List ProjectedFeature
  minX : Frac
  minY : Frac
  maxX : Frac
  maxY : Frac
  z2 : ℕ
  tx : ℕ
  ty : ℕ
  transformed : Bool
  recursedG : Bool
  zG : ℕ
deriving DecidableEq

/-- Modelled from the spec: the value-initialized Tile that
unordered_map operator[] creates for an absent key, the sentinel empty
tile of section 4.F.  Its contents are implementation-defined but fixed:
value initialization zeroes every field, and in particular it cannot
depend on the queried coordinates. -/
def defaultTile : Tile :=
  { features := [], numPoints := 0, numSimplified := 0, numFeatures := 0,
    source := [], minX := Frac.ofInt 0, minY := Frac.ofInt 0,
    maxX := Frac.ofInt 0, maxY := Frac.ofInt 0, z2 := 0, tx := 0, ty := 0,
    transformed := false, recursedG := false, zG := 0 }

/-- Number of vertices held by one geometry element. -/
def countVerts (el : GeomElem) : ℕ :=
  match el with
  | GeomElem.pt _ => 1
  | GeomElem.ring ms => ms.length

/-- Modelled from the spec: per-element emission of the tile factory
(section 4.D): point features emit their points unchanged; line and
polygon features emit each ring keeping only vertices whose importance is
at least the tolerance, or all vertices at max zoom.  Elements whose
variant does not match the feature kind are skipped (accessing them is
undefined in the C++ and cannot happen for converter-produced data). -/
def emitElem (tol : Frac) (noSimplify : Bool) (ft : FeatureType) (el : GeomElem) :
    Option GeomElem :=
  match ft, el with
  | FeatureType.point, GeomElem.pt p => some (GeomElem.pt p)
  | FeatureType.point, GeomElem.ring _ => none
  | _, GeomElem.pt _ => none
  | _, GeomElem.ring ms =>
    some (GeomElem.ring (if noSimplify then ms else ms.filter (fun p => tol.leb p.z)))

/-- Modelled from the spec: Tile::createTile (section 4.D; the tile
implementation is not under src/).  Iterates features, skipping any whose
minTolerance exceeds the tolerance; emits per-kind geometry; maintains
numPoints (input vertices of retained features), numSimplified (emitted
vertices) and numFeatures; folds the feature bboxes into the tile bbox;
leaves transformed false. -/
def createTile (features : List ProjectedFeature) (z2 : ℕ) (tx ty : ℕ)
    (tol : Frac) (noSimplify : Bool) : Tile :=
  let retained := features.filter (fun f => !(tol.ltb f.minTolerance))
  let tfs := retained.filterMap (fun f =>
    let g := f.geometry.filterMap (emitElem tol noSimplify f.type)
    if g.isEmpty then none
    else some ({ type := f.type, geometry := g, tileGeometry := [] } : TileFeature))
  { features := tfs,
    numPoints := retained.foldl (fun n f => n + (f.geometry.map countVerts).sum) 0,
    numSimplified := tfs.foldl (fun n f => n + (f.geometry.map countVerts).sum) 0,
    numFeatures := tfs.length,
    source := [],
    minX := retained.foldl (fun m f => fmin m f.minX) (Frac.ofInt 2),
    minY := retained.foldl (fun m f => fmin m f.minY) (Frac.ofInt 1),
    maxX := retained.foldl (fun m f => fmax m f.maxX) (Frac.ofInt (-1)),
    maxY := retained.foldl (fun m f => fmax m f.maxY) (Frac.ofInt 0),
    z2 := z2, tx := tx, ty := ty,
    transformed := false, recursedG := false, zG := 0 }

/-- GeoJSONVT::transformPoint (source lines 279-286): the normalized point
is mapped to (round(extent * (x * z2 - tx)), round(extent * (y * z2 - ty)))
with no clamping. -/
def transformPoint (p : ProjectedPoint) (extent_ : Frac) (z2 tx ty : ℕ) : TilePoint :=
  ⟨(extent_ * (p.x * Frac.ofInt z2 - Frac.ofInt tx)).round,
   (extent_ * (p.y * Frac.ofInt z2 - Frac.ofInt ty)).round⟩

/-- Per-feature body of GeoJSONVT::transformTile (source lines 253-272):
point features append one tile point per geometry member, other kinds
append one tile ring per member.  Members whose variant does not match the
kind are skipped (undefined behaviour in the C++, impossible for
factory-produced features). -/
def transformFeature (extent_ : Frac) (z2 tx ty : ℕ) (f : TileFeature) : TileFeature :=
  if f.type = FeatureType.point then
    { f with tileGeometry := f.tileGeometry ++ f.geometry.filterMap (fun el =>
        match el with
        | GeomElem.pt p => some (TileGeomElem.tpt (transformPoint p extent_ z2 tx ty))
        | GeomElem.ring _ => none) }
  else
    { f with tileGeometry := f.tileGeometry ++ f.geometry.filterMap (fun el =>
        match el with
        | GeomElem.pt _ => none
        | GeomElem.ring ms =>
          some (TileGeomElem.tring (ms.map (fun p => transformPoint p extent_ z2 tx ty)))) }

/-- GeoJSONVT::transformTile (source lines 244-277): an already transformed
tile is returned unchanged; otherwise every feature's tile geometry is
filled from the normalized geometry and transformed is set. -/
def transformTile (tile : Tile) (extent_ : Frac) : Tile :=
  if tile.transformed then tile
  else
    { tile with
      features := tile.features.map (transformFeature extent_ tile.z2 tile.tx tile.ty),
      transformed := true }

/-- Construction parameters of the pyramid (spec section 6). -/
structure Params where
  maxZoom : ℕ
  indexMaxZoom : ℕ
  indexMaxPoints : ℕ
  tolerance : Frac
  debug : Bool

/-- One work item of the splitTile stack (FeatureStackItem of the source):
the features of a cell together with its coordinates. -/
structure StackItem where
  features : List ProjectedFeature
  z : ℕ
  x : ℕ
  y : ℕ

/-- The mutable state of a pyramid object: the tile index keyed by toID,
plus the debug counters. -/
structure VTState where
  tiles : List (ℕ × Tile)
  stats : List (ℕ × ℕ)
  total : ℕ

/-- Lookup in an association list (the model of the unordered_map). -/
def lookupA {α : Type} : List (ℕ × α) → ℕ → Option α
  | [], _ => none
  | (k, v) :: rest, key => if k = key then some v else lookupA rest key

/-- Insert or overwrite in an association list. -/
def insertA {α : Type} : List (ℕ × α) → ℕ → α → List (ℕ × α)
  | [], key, v => [(key, v)]
  | (k, w) :: rest, key, v =>
    if k = key then (key, v) :: rest else (k, w) :: insertA rest key v

/-- The debug stats update of splitTile (source lines 118-120). -/
def statsBump (stats : List (ℕ × ℕ)) (z : ℕ) : List (ℕ × ℕ) :=
  match lookupA stats z with
  | some n => insertA stats z (n + 1)
  | none => insertA stats z 1

/-- The tile tolerance of splitTile (source line 100): 0 at max zoom,
otherwise tolerance / (z2 * extent). -/
def tileTolParam (P : Params) (z : ℕ) : Frac :=
  if z = P.maxZoom then Frac.ofInt 0
  else P.tolerance / (Frac.ofInt (2 ^ z : ℕ) * extentQ)

/-- The tile the loop body of splitTile works on (source lines 102-122):
the stored tile when the key is present, otherwise the tile the factory
creates for this cell. -/
def currentTile (P : Params) (st : VTState) (item : StackItem) : Tile :=
  match lookupA st.tiles (toID item.z item.x item.y) with
  | some t => t
  | none =>
    createTile item.features (2 ^ item.z) item.x item.y (tileTolParam P item.z)
      (item.z = P.maxZoom)

/-- The stop/recurse decision of the splitTile loop body (source lines
127-143), folded into one predicate: true means the body goes on to clip
and enqueue children, false means one of the three continue statements
fires (clipped square; index-ahead stop at indexMaxZoom or a small tile;
drill-down stop at maxZoom, at the target zoom, or at a cell that is not
an ancestor of the target). -/
def splitDecision (P : Params) (cz cx cy z x y : ℕ) (t : Tile) : Bool :=
  if isClippedSquare t.features extentQ bufferQ = some true then false
  else if cz = 0 then
    if z = P.indexMaxZoom ∨ t.numPoints ≤ P.indexMaxPoints then false else true
  else if z = P.maxZoom ∨ z = cz then false
  else if x ≠ cx / 2 ^ (cz - z) ∧ y ≠ cy / 2 ^ (cz - z) then false else true

/-- The fraction 1/2 (the literal 0.5 of the source). -/
def halfQ : Frac := ⟨1, 2⟩

/-- The child construction of splitTile (source lines 152-188): clip the
cell's features into the four buffered quadrants, reusing the two vertical
slabs, and enqueue the non-empty ones with doubled coordinates. -/
def childItems (features : List ProjectedFeature) (t : Tile) (z x y : ℕ) :
    List StackItem :=
  let z2s := Frac.ofInt (2 ^ z : ℕ)
  let k1 := halfQ * bufferQ / extentQ
  let k2 := halfQ - k1
  let k3 := halfQ + k1
  let k4 := Frac.ofInt 1 + k1
  let xq := Frac.ofInt x
  let yq := Frac.ofInt y
  let left := clip features z2s (xq - k1) (xq + k3) 0 intersectX t.minX t.maxX
  let right := clip features z2s (xq + k2) (xq + k4) 0 intersectX t.minX t.maxX
  let tl := if left.isEmpty then [] else
    clip left z2s (yq - k1) (yq + k3) 1 intersectY t.minY t.maxY
  let bl := if left.isEmpty then [] else
    clip left z2s (yq + k2) (yq + k4) 1 intersectY t.minY t.maxY
  let tr := if right.isEmpty then [] else
    clip right z2s (yq - k1) (yq + k3) 1 intersectY t.minY t.maxY
  let br := if right.isEmpty then [] else
    clip right z2s (yq + k2) (yq + k4) 1 intersectY t.minY t.maxY
  (if tl.isEmpty then [] else [⟨tl, z + 1, 2 * x, 2 * y⟩]) ++
  (if bl.isEmpty then [] else [⟨bl, z + 1, 2 * x, 2 * y + 1⟩]) ++
  (if tr.isEmpty then [] else [⟨tr, z + 1, 2 * x + 1, 2 * y⟩]) ++
  (if br.isEmpty then [] else [⟨br, z + 1, 2 * x + 1, 2 * y + 1⟩])

/-- The tile of the current cell right after the source assignment of
line 125: the fetched or created tile with source set to a copy of the
cell's features (and the ghost zG stamped with the cell's z). -/
def preTile (P : Params) (st : VTState) (item : StackItem) : Tile :=
  { currentTile P st item with source := item.features, zG := item.z }

/-- The state right after the fetch-or-create step of the loop body
(source lines 102-122): unchanged when the key is present, otherwise the
created tile is stored and the stats and total counters are bumped only
under the debug flag. -/
def preState (P : Params) (st : VTState) (item : StackItem) : VTState :=
  match lookupA st.tiles (toID item.z item.x item.y) with
  | some _ => st
  | none =>
    { st with
      tiles := insertA st.tiles (toID item.z item.x item.y)
        (createTile item.features (2 ^ item.z) item.x item.y
          (tileTolParam P item.z) (item.z = P.maxZoom)),
      stats := if P.debug then statsBump st.stats item.z else st.stats,
      total := if P.debug then st.total + 1 else st.total }

/-- One iteration of the splitTile work loop (source lines 89-189): fetch
or create the tile, save the cell's features into source, then either stop
(writing the tile back with the ghost recursion flag cleared), or clear
source, set the ghost recursion flag and enqueue the clipped children. -/
def processOne (P : Params) (cz cx cy : ℕ) (st : VTState) (item : StackItem) :
    VTState × List StackItem :=
  let id := toID item.z item.x item.y
  if splitDecision P cz cx cy item.z item.x item.y (preTile P st item) then
    ({ preState P st item with
       tiles := insertA (preState P st item).tiles id
         { preTile P st item with source := [], recursedG := true } },
     childItems item.features (currentTile P st item) item.z item.x item.y)
  else
    ({ preState P st item with
       tiles := insertA (preState P st item).tiles id
         { preTile P st item with recursedG := false } }, [])

/-- The splitTile work loop (source lines 89-189) as a fuel-indexed
iteration over the FIFO queue of stack items. -/
def splitLoop (P : Params) (cz cx cy : ℕ) : ℕ → VTState → List StackItem → VTState
  | 0, st, _ => st
  | _ + 1, st, [] => st
  | fuel + 1, st, item :: rest =>
    let r := processOne P cz cx cy st item
    splitLoop P cz cx cy fuel r.1 (rest ++ r.2)

/-- GeoJSONVT::splitTile (source lines 78-190). -/
def splitTile (P : Params) (fuel : ℕ) (st : VTState)
    (features : List ProjectedFeature) (z x y cz cx cy : ℕ) : VTState :=
  splitLoop P cz cx cy fuel st [⟨features, z, x, y⟩]

/-- The GeoJSONVT constructor (source lines 48-76): split from the root
with no drill-down target. -/
def build (P : Params) (features : List ProjectedFeature) (fuel : ℕ) : VTState :=
  splitTile P fuel ⟨[], [], 0⟩ features 0 0 0 0 0 0

/-- The ancestor walk of getTile (source lines 210-218): decrement z and
halve the coordinates until a stored tile is found; none models the loop
ending with parent still null. -/
def ancestorWalk (tiles : List (ℕ × Tile)) : ℕ → ℕ → ℕ → Option (ℕ × ℕ × ℕ)
  | 0, _, _ => none
  | z0 + 1, x0, y0 =>
    if (lookupA tiles (toID z0 (x0 / 2) (y0 / 2))).isSome then
      some (z0, x0 / 2, y0 / 2)
    else ancestorWalk tiles z0 (x0 / 2) (y0 / 2)

/-- The tail of getTile (source line 241): this->tiles[id] default-inserts
a value-initialized Tile when the key is still absent, and the result is
transformed in place and returned. -/
def finishGet (st : VTState) (id : ℕ) : VTState × Tile :=
  let t := (lookupA st.tiles id).getD defaultTile
  let t' := transformTile t extentQ
  ({ st with tiles := insertA st.tiles id t' }, t')

/-- GeoJSONVT::getTile (source lines 192-242).  The error value models the
unguarded parent->source dereference executed when the ancestor walk ends
with parent still null. -/
def getTile (P : Params) (fuel : ℕ) (st : VTState) (z x y : ℕ) :
    Except Unit (VTState × Tile) :=
  let id := toID z x y
  match lookupA st.tiles id with
  | some t =>
    let t' := transformTile t extentQ
    Except.ok ({ st with tiles := insertA st.tiles id t' }, t')
  | none =>
    match ancestorWalk st.tiles z x y with
    | none => Except.error ()
    | some (z0, x0, y0) =>
      match lookupA st.tiles (toID z0 x0 y0) with
      | none => Except.error ()
      | some parent =>
        if parent.source.isEmpty then Except.ok (finishGet st id)
        else if isClippedSquare parent.features extentQ bufferQ = some true then
          let p' := transformTile parent extentQ
          Except.ok ({ st with tiles := insertA st.tiles (toID z0 x0 y0) p' }, p')
        else
          Except.ok (finishGet (splitTile P fuel st parent.source z0 x0 y0 z x y) id)

/-- The sentinel tile getTile stores and returns for a key that is still
absent after the drill-down attempt: the value-initialized Tile,
transformed in place (trivially, as it has no features). -/
def sentinelTile : Tile := transformTile defaultTile extentQ

/-- The source-clearing invariant of the builder (spec sections 3 and
4.E): every stored tile through which the builder recursed at its last
processing has an empty source. -/
def SourceInv (st : VTState) : Prop :=
  ∀ k t, lookupA st.tiles k = some t → t.recursedG = true → t.source = []

/-- The index-ahead stopping invariant (spec section 4.E): every stored
tile through which the builder recursed was processed strictly below
indexMaxZoom and holds more than indexMaxPoints points. -/
def IndexInv (P : Params) (st : VTState) : Prop :=
  ∀ k t, lookupA st.tiles k = some t → t.recursedG = true →
    t.zG < P.indexMaxZoom ∧ P.indexMaxPoints < t.numPoints

/-- Concrete parameters used by the witness and counterexample runs:
maxZoom 14, indexMaxZoom 5, indexMaxPoints 100, tolerance 3, debug off. -/
def P0 : Params := ⟨14, 5, 100, Frac.ofInt 3, false⟩

/-- Projection of a transformed geometry element to bare coordinates,
used to state concrete scenarios. -/
def tileGeomCoords : TileGeomElem → List (ℤ × ℤ)
  | TileGeomElem.tpt p => [(p.x, p.y)]
  | TileGeomElem.tring ps => ps.map (fun p => (p.x, p.y))

/-- The single point feature of scenario S1: a point at normalized
(1/2, 1/2). -/
def pointHalf : ProjectedFeature :=
  ⟨FeatureType.point, [GeomElem.pt ⟨halfQ, halfQ, Frac.ofInt 0⟩],
   halfQ, halfQ, halfQ, halfQ, Frac.ofInt 0⟩

/-- A tile feature tracing the buffered square boundary, used as a witness
input: one polygon ring through (-64, -64), (4160, -64), (4160, 4160),
(-64, 4160). -/
def squareFeature : TileFeature :=
  ⟨FeatureType.polygon,
   [GeomElem.ring
     [⟨Frac.ofInt (-64), Frac.ofInt (-64), Frac.ofInt 1⟩,
      ⟨Frac.ofInt 4160, Frac.ofInt (-64), Frac.ofInt 1⟩,
      ⟨Frac.ofInt 4160, Frac.ofInt 4160, Frac.ofInt 1⟩,
      ⟨Frac.ofInt (-64), Frac.ofInt 4160, Frac.ofInt 1⟩,
      ⟨Frac.ofInt (-64), Frac.ofInt (-64), Frac.ofInt 1⟩]],
   []⟩

/-- A state whose root tile is a stored clipped square, used as a witness
input. -/
def stateSquare : VTState :=
  ⟨[(toID 0 0 0, { defaultTile with features := [squareFeature] })], [], 0⟩

/-- The root tile of the empty-input pyramid built with P0, used as a
witness input. -/
def rootP0 : Tile := (lookupA (build P0 [] 4).tiles (toID 0 0 0)).getD defaultTile

/-- The spec-side key encoding round-trips: decode recovers every valid
triple, so the 64-bit encoding described by the spec is collision-free. -/
theorem decodeID_toIDSpec (z x y : ℕ) (hx : x < 2 ^ z) (hz : z < 32) :
    decodeID (toIDSpec z x y) = (z, x, y) := by
  have hzpos : 0 < 2 ^ z := Nat.pos_pow_of_pos z (by norm_num)
  dsimp only [decodeID, toIDSpec]
  rw [Nat.mul_comm (2 ^ z * y + x) 32]
  rw [Nat.mul_add_mod, Nat.mod_eq_of_lt hz]
  rw [Nat.mul_add_div (by norm_num : 0 < 32), Nat.div_eq_of_lt hz, Nat.add_zero]
  rw [Nat.mul_add_mod, Nat.mod_eq_of_lt hx]
  rw [Nat.mul_add_div hzpos, Nat.div_eq_of_lt hx, Nat.add_zero]

theorem boundaryLoop_eq_all (e b : Frac) (ms : List ProjectedPoint) :
    boundaryLoop e b ms = ms.all (onBoundaryB e b) := by
  induction ms with
  | nil => rfl
  | cons p rest ih =>
    simp only [boundaryLoop, List.all_cons, onBoundaryB]
    by_cases h1 : p.x.eqb (-b) = true <;> by_cases h2 : p.x.eqb (e + b) = true <;>
      by_cases h3 : p.y.eqb (-b) = true <;> by_cases h4 : p.y.eqb (e + b) = true <;>
      simp [h1, h2, h3, h4, ih]

theorem boundaryLoop_iff (e b : Frac) (ms : List ProjectedPoint) :
    boundaryLoop e b ms = true ↔ ∀ p ∈ ms, onBoundary e b p := by
  rw [boundaryLoop_eq_all, List.all_eq_true]
  refine forall_congr' fun p => forall_congr' fun _ => ?_
  simp [onBoundaryB, onBoundary]

theorem isClippedSquare_some_true_iff (fs : List TileFeature) (e b : Frac) :
    isClippedSquare fs e b = some true ↔ clippedSquareSpec fs e b := by
  match fs with
  | [] => simp [isClippedSquare, clippedSquareSpec]
  | f :: g :: rest => simp [isClippedSquare, clippedSquareSpec]
  | [f] =>
    obtain ⟨ft, fg, ftg⟩ := f
    cases ft
    case point => simp [isClippedSquare, clippedSquareSpec]
    case lineString => simp [isClippedSquare, clippedSquareSpec]
    case polygon =>
      cases fg with
      | nil => simp [isClippedSquare, clippedSquareSpec]
      | cons e1 tail =>
        cases e1 with
        | pt p => simp [isClippedSquare, clippedSquareSpec]
        | ring ms =>
          cases tail with
          | nil => simp [isClippedSquare, clippedSquareSpec, boundaryLoop_iff]
          | cons t ts => simp [isClippedSquare, clippedSquareSpec]

/-- C1: the key encoding, as the code computes it, collides on distinct
valid triples: (z, x, y) = (24, 0, 0) and (24, 0, 256) both satisfy
0 ≤ z ≤ 24, x < 2^z, y < 2^z, yet receive the same key 24, because the
C++ expression is evaluated in 32-bit arithmetic before widening.  This
refutes the claimed injectivity on the code as written; the spec formula
itself is injective (see decodeID_toIDSpec), so the code is the slip. -/
theorem c1_toID_collision :
    toID 24 0 0 = toID 24 0 256 ∧ (24, 0, 256) ≠ ((24, 0, 0) : ℕ × ℕ × ℕ) ∧
      (0 : ℕ) < 2 ^ 24 ∧ (256 : ℕ) < 2 ^ 24 ∧
      toIDSpec 24 0 0 ≠ toIDSpec 24 0 256 := by
  refine ⟨by decide, by decide, by decide, by decide, by decide⟩

theorem lookupA_insertA {α : Type} (l : List (ℕ × α)) (k k' : ℕ) (v : α) :
    lookupA (insertA l k v) k' = if k = k' then some v else lookupA l k' := by
  induction l with
  | nil => simp [insertA, lookupA]
  | cons hd tl ih =>
    obtain ⟨hk, hv⟩ := hd
    by_cases h : hk = k
    · subst h
      by_cases h2 : hk = k' <;> simp [insertA, lookupA, h2]
    · by_cases h2 : hk = k'
      · subst h2
        have hkk : k ≠ hk := fun he => h he.symm
        simp [insertA, lookupA, h, hkk]
      · simp [insertA, lookupA, h, h2, ih]

theorem insertA_self {α : Type} (l : List (ℕ × α)) (k : ℕ) (v : α)
    (h : lookupA l k = some v) : insertA l k v = l := by
  induction l with
  | nil => simp [lookupA] at h
  | cons hd tl ih =>
    obtain ⟨hk, hv⟩ := hd
    by_cases hkk : hk = k
    · subst hkk
      have h' : hv = v := by simpa [lookupA] using h
      subst h'
      simp [insertA]
    · simp only [lookupA, if_neg hkk] at h
      simp [insertA, hkk, ih h]

theorem isSome_lookupA_insertA {α : Type} (l : List (ℕ × α)) (k k' : ℕ) (v : α)
    (h : (lookupA l k').isSome) : (lookupA (insertA l k v) k').isSome := by
  rw [lookupA_insertA]
  by_cases hk : k = k' <;> simp [hk, h]

/-- C7: transformTile transforms a tile at most once: a second application
is the identity, and an already transformed tile is returned entirely
unchanged (no second append to tileGeometry, no other field mutated). -/
theorem c7_transformTile_idempotent (t : Tile) (e : Frac) :
    transformTile (transformTile t e) e = transformTile t e ∧
    (t.transformed = true → transformTile t e = t) := by
  constructor
  · by_cases h : t.transformed = true
    · simp [transformTile, h]
    · simp [transformTile, h]
  · intro h
    simp [transformTile, h]

theorem c7_transformTile_idempotent_witness :
    transformTile { defaultTile with transformed := true } extentQ =
      { defaultTile with transformed := true } :=
  (c7_transformTile_idempotent { defaultTile with transformed := true } extentQ).2 rfl

/-- C2: in drill-down mode, for a popped cell below both the target zoom
and maxZoom whose tile is not a clipped square, the loop body enqueues the
cell's clipped children exactly when x = floor(cx / 2^(cz-z)) OR
y = floor(cy / 2^(cz-z)) (the disjunction of source line 142); otherwise
the cell is pruned and nothing is enqueued for it. -/
theorem c2_drilldown_ancestor_test (P : Params) (cz cx cy : ℕ) (st : VTState)
    (item : StackItem) (hcz : cz ≠ 0) (hz1 : item.z < cz) (hz2 : item.z < P.maxZoom)
    (hsq : ¬ isClippedSquare (currentTile P st item).features extentQ bufferQ = some true) :
    (processOne P cz cx cy st item).2 =
      if item.x = cx / 2 ^ (cz - item.z) ∨ item.y = cy / 2 ^ (cz - item.z)
      then childItems item.features (currentTile P st item) item.z item.x item.y
      else [] := by
  have hsq' : ¬ isClippedSquare (preTile P st item).features extentQ bufferQ = some true := hsq
  by_cases hxy : item.x = cx / 2 ^ (cz - item.z) ∨ item.y = cy / 2 ^ (cz - item.z)
  · have hdec : splitDecision P cz cx cy item.z item.x item.y (preTile P st item) = true := by
      simp only [splitDecision, if_neg hsq', if_neg hcz,
        if_neg (by omega : ¬(item.z = P.maxZoom ∨ item.z = cz))]
      rw [if_neg (by tauto)]
    simp only [processOne, hdec, if_true, if_pos hxy]
  · have hdec : splitDecision P cz cx cy item.z item.x item.y (preTile P st item) = false := by
      simp only [splitDecision, if_neg hsq', if_neg hcz,
        if_neg (by omega : ¬(item.z = P.maxZoom ∨ item.z = cz))]
      rw [if_pos (by tauto)]
    simp only [processOne, hdec, if_neg hxy]
    simp

theorem c2_drilldown_ancestor_test_witness :
    (processOne P0 2 0 0 ⟨[], [], 0⟩ ⟨[], 1, 0, 0⟩).2 =
      if (1 : ℕ) = 0 / 2 ^ (2 - 1) ∨ (1 : ℕ) = 0 / 2 ^ (2 - 1)
      then childItems [] (currentTile P0 ⟨[], [], 0⟩ ⟨[], 1, 0, 0⟩) 1 1 0
      else [] := by
  have h := c2_drilldown_ancestor_test P0 2 0 0 ⟨[], [], 0⟩ ⟨[], 1, 0, 0⟩
    (by decide) (by decide) (by decide) (by decide)
  exact h

/-- C3: isClippedSquare (where the C++ is defined, i.e. off the
out-of-bounds front access) returns true exactly on a single polygon
feature with a single ring all of whose vertices lie on the buffered
square boundary; and whenever the current tile of a popped cell tests as a
clipped square, the loop body enqueues no children for it. -/
theorem c3_isClippedSquare_characterization :
    (∀ (fs : List TileFeature) (e b : Frac),
        isClippedSquare fs e b = some true ↔ clippedSquareSpec fs e b) ∧
    (∀ (P : Params) (cz cx cy : ℕ) (st : VTState) (item : StackItem),
        isClippedSquare (currentTile P st item).features extentQ bufferQ = some true →
        (processOne P cz cx cy st item).2 = []) := by
  refine ⟨isClippedSquare_some_true_iff, ?_⟩
  intro P cz cx cy st item hsq
  have hsq' : isClippedSquare (preTile P st item).features extentQ bufferQ = some true := hsq
  have hdec : splitDecision P cz cx cy item.z item.x item.y (preTile P st item) = false := by
    simp only [splitDecision]
    rw [if_pos hsq']
  simp only [processOne, hdec]
  simp

theorem c3_isClippedSquare_characterization_witness :
    (processOne P0 0 0 0 stateSquare ⟨[], 0, 0, 0⟩).2 = [] :=
  c3_isClippedSquare_characterization.2 P0 0 0 0 stateSquare ⟨[], 0, 0, 0⟩ (by decide)

theorem lookupA_preState_ne (P : Params) (st : VTState) (item : StackItem) (k : ℕ)
    (hk : toID item.z item.x item.y ≠ k) :
    lookupA (preState P st item).tiles k = lookupA st.tiles k := by
  dsimp only [preState]
  rcases hm : lookupA st.tiles (toID item.z item.x item.y) with _ | t
  · simp only [hm]
    rw [lookupA_insertA, if_neg hk]
  · simp only [hm]

theorem isSome_lookupA_preState (P : Params) (st : VTState) (item : StackItem) (k : ℕ)
    (h : (lookupA st.tiles k).isSome) :
    (lookupA (preState P st item).tiles k).isSome := by
  by_cases hk : toID item.z item.x item.y = k
  · subst hk
    dsimp only [preState]
    rcases hm : lookupA st.tiles (toID item.z item.x item.y) with _ | t
    · simp only [hm]
      rw [lookupA_insertA]
      simp
    · simp only [hm]
      simp
  · rw [lookupA_preState_ne P st item k hk]
    exact h

theorem lookupA_processOne_self (P : Params) (cz cx cy : ℕ) (st : VTState)
    (item : StackItem) :
    lookupA (processOne P cz cx cy st item).1.tiles (toID item.z item.x item.y) =
      some (if splitDecision P cz cx cy item.z item.x item.y (preTile P st item)
            then { preTile P st item with source := [], recursedG := true }
            else { preTile P st item with recursedG := false }) := by
  by_cases hd : splitDecision P cz cx cy item.z item.x item.y (preTile P st item) = true
  · simp [processOne, hd, lookupA_insertA]
  · simp only [Bool.not_eq_true] at hd
    simp [processOne, hd, lookupA_insertA]

theorem lookupA_processOne_ne (P : Params) (cz cx cy : ℕ) (st : VTState)
    (item : StackItem) (k : ℕ) (hk : toID item.z item.x item.y ≠ k) :
    lookupA (processOne P cz cx cy st item).1.tiles k = lookupA st.tiles k := by
  by_cases hd : splitDecision P cz cx cy item.z item.x item.y (preTile P st item) = true
  · simp [processOne, hd, lookupA_insertA, hk, lookupA_preState_ne P st item k hk]
  · simp only [Bool.not_eq_true] at hd
    simp [processOne, hd, lookupA_insertA, hk, lookupA_preState_ne P st item k hk]

theorem isSome_lookupA_processOne (P : Params) (cz cx cy : ℕ) (st : VTState)
    (item : StackItem) (k : ℕ) (h : (lookupA st.tiles k).isSome) :
    (lookupA (processOne P cz cx cy st item).1.tiles k).isSome := by
  by_cases hk : toID item.z item.x item.y = k
  · subst hk
    rw [lookupA_processOne_self]
    simp
  · rw [lookupA_processOne_ne P cz cx cy st item k hk]
    exact h

theorem isSome_lookupA_splitLoop (P : Params) (cz cx cy : ℕ) :
    ∀ (fuel : ℕ) (st : VTState) (stack : List StackItem) (k : ℕ),
      (lookupA st.tiles k).isSome →
      (lookupA (splitLoop P cz cx cy fuel st stack).tiles k).isSome := by
  intro fuel
  induction fuel with
  | zero =>
    intro st stack k h
    simpa [splitLoop] using h
  | succ n ih =>
    intro st stack k h
    cases stack with
    | nil => simpa [splitLoop] using h
    | cons item rest =>
      simp only [splitLoop]
      exact ih _ _ _ (isSome_lookupA_processOne P cz cx cy st item k h)

theorem root_present_build (P : Params) (features : List ProjectedFeature) (fuel : ℕ)
    (h : 1 ≤ fuel) : (lookupA (build P features fuel).tiles (toID 0 0 0)).isSome := by
  obtain ⟨n, rfl⟩ : ∃ n, fuel = n + 1 := ⟨fuel - 1, by omega⟩
  dsimp only [build, splitTile]
  simp only [splitLoop]
  apply isSome_lookupA_splitLoop
  rw [lookupA_processOne_self P 0 0 0 ⟨[], [], 0⟩ ⟨features, 0, 0, 0⟩]
  simp

theorem ancestorWalk_finds (tiles : List (ℕ × Tile)) :
    ∀ (z x y : ℕ), (lookupA tiles (toID 0 0 0)).isSome → x < 2 ^ z → y < 2 ^ z →
      lookupA tiles (toID z x y) = none → (ancestorWalk tiles z x y).isSome := by
  intro z
  induction z with
  | zero =>
    intro x y hroot hx hy habs
    have hx0 : x = 0 := by simpa using Nat.lt_one_iff.mp (by simpa using hx)
    have hy0 : y = 0 := by simpa using Nat.lt_one_iff.mp (by simpa using hy)
    subst hx0; subst hy0
    rw [habs] at hroot
    simp at hroot
  | succ n ih =>
    intro x y hroot hx hy habs
    simp only [ancestorWalk]
    by_cases h : (lookupA tiles (toID n (x / 2) (y / 2))).isSome = true
    · simp [h]
    · simp only [h, if_false, Bool.false_eq_true]
      apply ih (x / 2) (y / 2) hroot
      · have hx2 : x < 2 ^ n * 2 := by rw [← pow_succ]; exact hx
        omega
      · have hy2 : y < 2 ^ n * 2 := by rw [← pow_succ]; exact hy
        omega
      · rcases hm : lookupA tiles (toID n (x / 2) (y / 2)) with _ | t
        · rfl
        · rw [hm] at h; simp at h

theorem ancestorWalk_present (tiles : List (ℕ × Tile)) :
    ∀ (z x y z0 x0 y0 : ℕ), ancestorWalk tiles z x y = some (z0, x0, y0) →
      (lookupA tiles (toID z0 x0 y0)).isSome := by
  intro z
  induction z with
  | zero =>
    intro x y z0 x0 y0 h
    simp [ancestorWalk] at h
  | succ n ih =>
    intro x y z0 x0 y0 h
    simp only [ancestorWalk] at h
    by_cases hc : (lookupA tiles (toID n (x / 2) (y / 2))).isSome = true
    · rw [if_pos hc] at h
      obtain ⟨h1, h2, h3⟩ : n = z0 ∧ x / 2 = x0 ∧ y / 2 = y0 := by simpa using h
      subst h1; subst h2; subst h3
      exact hc
    · rw [if_neg hc] at h
      exact ih _ _ _ _ _ h

/-- C4 (amended): after any construction, also from an empty feature list,
the tile index contains the root key toID(0,0,0); and in every getTile
call whose key is absent and whose coordinates are in range for the zoom
(x < 2^z and y < 2^z), the ancestor walk terminates with a stored parent,
so the unguarded dereference of parent never reads a null pointer (the
model error that stands for the null dereference is unreachable).  Without
the in-range restriction the original claim is false: see the
counterexample theorem. -/
theorem c4_root_guarantees_parent :
    (∀ (P : Params) (features : List ProjectedFeature) (fuel : ℕ), 1 ≤ fuel →
      (lookupA (build P features fuel).tiles (toID 0 0 0)).isSome) ∧
    (∀ (P : Params) (fuel : ℕ) (st : VTState) (z x y : ℕ),
      (lookupA st.tiles (toID 0 0 0)).isSome → x < 2 ^ z → y < 2 ^ z →
      getTile P fuel st z x y ≠ Except.error ()) := by
  refine ⟨root_present_build, ?_⟩
  intro P fuel st z x y hroot hx hy
  dsimp only [getTile]
  rcases hm : lookupA st.tiles (toID z x y) with _ | t
  · have hw := ancestorWalk_finds st.tiles z x y hroot hx hy hm
    rcases hwm : ancestorWalk st.tiles z x y with _ | w
    · rw [hwm] at hw; simp at hw
    · obtain ⟨z0, x0, y0⟩ := w
      have hp := ancestorWalk_present st.tiles z x y z0 x0 y0 hwm
      rcases hpm : lookupA st.tiles (toID z0 x0 y0) with _ | parent
      · rw [hpm] at hp; simp at hp
      · simp only [hm, hwm, hpm]
        by_cases h1 : parent.source.isEmpty = true
        · simp [h1]
        · by_cases h2 : isClippedSquare parent.features extentQ bufferQ = some true <;>
            simp [h1, h2]
  · simp only [hm]
    simp

/-- C4 counterexample: on the pyramid built from an empty feature list the
root key is present, yet getTile(0, 1, 0), whose x is outside the valid
range for z = 0, ends its ancestor walk with parent still null, and the
code dereferences the null parent (the model returns its error value, so
the call produces no tile). -/
theorem c4_counterexample :
    (lookupA (build P0 [] 4).tiles (toID 0 0 0)).isSome = true ∧
    (getTile P0 4 (build P0 [] 4) 0 1 0).toOption.isNone = true := ⟨by decide, by decide⟩

theorem c4_root_guarantees_parent_witness :
    ((lookupA (build P0 [] 4).tiles (toID 0 0 0)).isSome = true) ∧
    getTile P0 4 (build P0 [] 4) 1 0 0 ≠ Except.error () :=
  ⟨c4_root_guarantees_parent.1 P0 [] 4 (by decide),
   c4_root_guarantees_parent.2 P0 4 (build P0 [] 4) 1 0 0 (by decide) (by decide) (by decide)⟩

theorem processOne_snd (P : Params) (cz cx cy : ℕ) (st : VTState) (item : StackItem) :
    (processOne P cz cx cy st item).2 =
      if splitDecision P cz cx cy item.z item.x item.y (preTile P st item)
      then childItems item.features (currentTile P st item) item.z item.x item.y
      else [] := by
  by_cases hd : splitDecision P cz cx cy item.z item.x item.y (preTile P st item) = true
  · simp [processOne, hd]
  · simp only [Bool.not_eq_true] at hd
    simp [processOne, hd]

theorem mem_if_nil_singleton {α : Type} {c : Prop} [Decidable c] {s it : α}
    (h : it ∈ (if c then ([] : List α) else [s])) : it = s := by
  split at h
  · simp at h
  · simpa using h

theorem childItems_z_succ (features : List ProjectedFeature) (t : Tile) (z x y : ℕ) :
    ∀ it ∈ childItems features t z x y, it.z = z + 1 := by
  intro it h
  dsimp only [childItems] at h
  simp only [List.mem_append] at h
  rcases h with ((h | h) | h) | h <;> rw [mem_if_nil_singleton h]

theorem splitDecision_index_iff (P : Params) (cx cy z x y : ℕ) (t : Tile) :
    splitDecision P 0 cx cy z x y t = true ↔
      (¬ isClippedSquare t.features extentQ bufferQ = some true ∧
       z ≠ P.indexMaxZoom ∧ P.indexMaxPoints < t.numPoints) := by
  by_cases h1 : isClippedSquare t.features extentQ bufferQ = some true
  · simp [splitDecision, h1]
  · by_cases h2 : z = P.indexMaxZoom ∨ t.numPoints ≤ P.indexMaxPoints
    · simp only [splitDecision, if_neg h1, if_pos rfl, if_pos h2]
      constructor
      · intro h; cases h
      · intro ⟨_, hb, hc⟩
        rcases h2 with h2 | h2
        · exact absurd h2 hb
        · omega
    · simp only [splitDecision, if_neg h1, if_pos rfl, if_neg h2]
      push_neg at h2
      simp [h1, h2.1, h2.2]

theorem sourceInv_processOne (P : Params) (cz cx cy : ℕ) (st : VTState)
    (item : StackItem) (h : SourceInv st) :
    SourceInv (processOne P cz cx cy st item).1 := by
  intro k t hk hrec
  by_cases hkid : toID item.z item.x item.y = k
  · subst hkid
    rw [lookupA_processOne_self] at hk
    by_cases hd : splitDecision P cz cx cy item.z item.x item.y (preTile P st item) = true
    · have ht : t = { preTile P st item with source := [], recursedG := true } := by
        simpa [hd] using hk.symm
      rw [ht]
    · simp only [Bool.not_eq_true] at hd
      have ht : t = { preTile P st item with recursedG := false } := by
        simpa [hd] using hk.symm
      rw [ht] at hrec
      simp at hrec
  · rw [lookupA_processOne_ne P cz cx cy st item k hkid] at hk
    exact h k t hk hrec

theorem sourceInv_splitLoop (P : Params) (cz cx cy : ℕ) :
    ∀ (fuel : ℕ) (st : VTState) (stack : List StackItem),
      SourceInv st → SourceInv (splitLoop P cz cx cy fuel st stack) := by
  intro fuel
  induction fuel with
  | zero =>
    intro st stack h
    simpa [splitLoop] using h
  | succ n ih =>
    intro st stack h
    cases stack with
    | nil => simpa [splitLoop] using h
    | cons item rest =>
      simp only [splitLoop]
      exact ih _ _ (sourceInv_processOne P cz cx cy st item h)

/-- C8: the loop body stores the cell's tile with source set to the cell's
features and, exactly when it recurses, clears source before the children
are enqueued (a non-empty child list only arises from a recursing body);
consequently every state reachable by the builder from a state satisfying
the invariant, and in particular every constructed pyramid, satisfies: a
stored tile through which the builder recursed has empty source, so a
non-empty source is only found on tiles where the builder stopped. -/
theorem c8_source_lifecycle :
    (∀ (P : Params) (cz cx cy : ℕ) (st : VTState) (item : StackItem),
      lookupA (processOne P cz cx cy st item).1.tiles (toID item.z item.x item.y) =
        some (if splitDecision P cz cx cy item.z item.x item.y (preTile P st item)
              then { preTile P st item with source := [], recursedG := true }
              else { preTile P st item with recursedG := false }) ∧
      ((processOne P cz cx cy st item).2 = [] ∨
        splitDecision P cz cx cy item.z item.x item.y (preTile P st item) = true)) ∧
    (∀ (P : Params) (cz cx cy fuel : ℕ) (st : VTState) (stack : List StackItem),
      SourceInv st → SourceInv (splitLoop P cz cx cy fuel st stack)) ∧
    (∀ (P : Params) (features : List ProjectedFeature) (fuel : ℕ),
      SourceInv (build P features fuel)) := by
  refine ⟨?_, ?_, ?_⟩
  · intro P cz cx cy st item
    refine ⟨lookupA_processOne_self P cz cx cy st item, ?_⟩
    by_cases hd : splitDecision P cz cx cy item.z item.x item.y (preTile P st item) = true
    · exact Or.inr hd
    · refine Or.inl ?_
      rw [processOne_snd]
      simp only [Bool.not_eq_true] at hd
      simp [hd]
  · intro P cz cx cy fuel st stack h
    exact sourceInv_splitLoop P cz cx cy fuel st stack h
  · intro P features fuel
    apply sourceInv_splitLoop
    intro k t hk
    simp [lookupA] at hk

theorem c8_source_lifecycle_witness : SourceInv (build P0 [] 3) :=
  c8_source_lifecycle.2.2 P0 [] 3

theorem indexInv_processOne (P : Params) (cx cy : ℕ) (st : VTState)
    (item : StackItem) (h : IndexInv P st) (hiz : item.z ≤ P.indexMaxZoom) :
    IndexInv P (processOne P 0 cx cy st item).1 := by
  intro k t hk hrec
  by_cases hkid : toID item.z item.x item.y = k
  · subst hkid
    rw [lookupA_processOne_self] at hk
    by_cases hd : splitDecision P 0 cx cy item.z item.x item.y (preTile P st item) = true
    · have ht : t = { preTile P st item with source := [], recursedG := true } := by
        simpa [hd] using hk.symm
      obtain ⟨_, hne, hpts⟩ := (splitDecision_index_iff P cx cy item.z item.x item.y
        (preTile P st item)).mp hd
      constructor
      · rw [ht]
        show item.z < P.indexMaxZoom
        omega
      · rw [ht]
        exact hpts
    · simp only [Bool.not_eq_true] at hd
      have ht : t = { preTile P st item with recursedG := false } := by
        simpa [hd] using hk.symm
      rw [ht] at hrec
      simp at hrec
  · rw [lookupA_processOne_ne P 0 cx cy st item k hkid] at hk
    exact h k t hk hrec

theorem indexInv_splitLoop (P : Params) (cx cy : ℕ) :
    ∀ (fuel : ℕ) (st : VTState) (stack : List StackItem),
      IndexInv P st → (∀ it ∈ stack, it.z ≤ P.indexMaxZoom) →
      IndexInv P (splitLoop P 0 cx cy fuel st stack) := by
  intro fuel
  induction fuel with
  | zero =>
    intro st stack h hstk
    simpa [splitLoop] using h
  | succ n ih =>
    intro st stack h hstk
    cases stack with
    | nil => simpa [splitLoop] using h
    | cons item rest =>
      simp only [splitLoop]
      have hiz : item.z ≤ P.indexMaxZoom := hstk item (by simp)
      apply ih
      · exact indexInv_processOne P cx cy st item h hiz
      · intro it hit
        rcases List.mem_append.mp hit with hr | hc
        · exact hstk it (List.mem_cons_of_mem _ hr)
        · rw [processOne_snd] at hc
          by_cases hd : splitDecision P 0 cx cy item.z item.x item.y (preTile P st item) = true
          · rw [if_pos hd] at hc
            have hz := childItems_z_succ item.features (currentTile P st item)
              item.z item.x item.y it hc
            obtain ⟨_, hne, _⟩ := (splitDecision_index_iff P cx cy item.z item.x item.y
              (preTile P st item)).mp hd
            omega
          · simp only [Bool.not_eq_true] at hd
            rw [hd] at hc
            simp at hc

/-- C9: in index-ahead mode (cz = 0) the loop body recurses exactly when
the tile is not a clipped square, z differs from indexMaxZoom and
numPoints exceeds indexMaxPoints (equivalently, it stops exactly at
z = indexMaxZoom, at numPoints ≤ indexMaxPoints, or at a clipped square);
consequently after any construction every stored tile through which the
builder recursed satisfies z < indexMaxZoom and numPoints >
indexMaxPoints. -/
theorem c9_index_ahead_stop :
    (∀ (P : Params) (cx cy z x y : ℕ) (t : Tile),
      splitDecision P 0 cx cy z x y t = true ↔
        (¬ isClippedSquare t.features extentQ bufferQ = some true ∧
         z ≠ P.indexMaxZoom ∧ P.indexMaxPoints < t.numPoints)) ∧
    (∀ (P : Params) (features : List ProjectedFeature) (fuel : ℕ),
      IndexInv P (build P features fuel)) := by
  refine ⟨splitDecision_index_iff, ?_⟩
  intro P features fuel
  apply indexInv_splitLoop
  · intro k t hk
    simp [lookupA] at hk
  · intro it hit
    have : it = ⟨features, 0, 0, 0⟩ := by simpa using hit
    rw [this]
    exact Nat.zero_le _

theorem c9_index_ahead_stop_witness :
    IndexInv P0 (build P0 [] 3) ∧
    (splitDecision P0 0 0 0 0 0 0 defaultTile = true ↔
      (¬ isClippedSquare defaultTile.features extentQ bufferQ = some true ∧
       (0 : ℕ) ≠ P0.indexMaxZoom ∧ P0.indexMaxPoints < defaultTile.numPoints)) :=
  ⟨c9_index_ahead_stop.2 P0 [] 3, c9_index_ahead_stop.1 P0 0 0 0 0 0 defaultTile⟩

theorem currentTile_debug (P : Params) (d1 d2 : Bool) (st1 st2 : VTState)
    (item : StackItem) (h : st1.tiles = st2.tiles) :
    currentTile { P with debug := d1 } st1 item =
      currentTile { P with debug := d2 } st2 item := by
  dsimp only [currentTile, tileTolParam]
  rw [h]

theorem preTile_debug (P : Params) (d1 d2 : Bool) (st1 st2 : VTState)
    (item : StackItem) (h : st1.tiles = st2.tiles) :
    preTile { P with debug := d1 } st1 item = preTile { P with debug := d2 } st2 item := by
  dsimp only [preTile]
  rw [currentTile_debug P d1 d2 st1 st2 item h]

theorem splitDecision_debug (P : Params) (d1 d2 : Bool) (cz cx cy z x y : ℕ) (t : Tile) :
    splitDecision { P with debug := d1 } cz cx cy z x y t =
      splitDecision { P with debug := d2 } cz cx cy z x y t := rfl

theorem preState_tiles_debug (P : Params) (d1 d2 : Bool) (st1 st2 : VTState)
    (item : StackItem) (h : st1.tiles = st2.tiles) :
    (preState { P with debug := d1 } st1 item).tiles =
      (preState { P with debug := d2 } st2 item).tiles := by
  dsimp only [preState, tileTolParam]
  rcases hm : lookupA st1.tiles (toID item.z item.x item.y) with _ | t
  · have hm2 : lookupA st2.tiles (toID item.z item.x item.y) = none := by
      rw [← h]; exact hm
    simp only [hm, hm2]
    rw [h]
  · have hm2 : lookupA st2.tiles (toID item.z item.x item.y) = some t := by
      rw [← h]; exact hm
    simp only [hm, hm2]
    exact h

theorem processOne_debug (P : Params) (d1 d2 : Bool) (cz cx cy : ℕ)
    (st1 st2 : VTState) (item : StackItem) (h : st1.tiles = st2.tiles) :
    (processOne { P with debug := d1 } cz cx cy st1 item).1.tiles =
      (processOne { P with debug := d2 } cz cx cy st2 item).1.tiles ∧
    (processOne { P with debug := d1 } cz cx cy st1 item).2 =
      (processOne { P with debug := d2 } cz cx cy st2 item).2 := by
  have hct := currentTile_debug P d1 d2 st1 st2 item h
  have hpt := preTile_debug P d1 d2 st1 st2 item h
  have hdec : splitDecision { P with debug := d1 } cz cx cy item.z item.x item.y
      (preTile { P with debug := d1 } st1 item) =
      splitDecision { P with debug := d2 } cz cx cy item.z item.x item.y
      (preTile { P with debug := d2 } st2 item) := by
    rw [hpt]
    exact splitDecision_debug P d1 d2 cz cx cy item.z item.x item.y _
  by_cases hd : splitDecision { P with debug := d1 } cz cx cy item.z item.x item.y
      (preTile { P with debug := d1 } st1 item) = true
  · have hd2 : splitDecision { P with debug := d2 } cz cx cy item.z item.x item.y
        (preTile { P with debug := d2 } st2 item) = true := by rw [← hdec]; exact hd
    constructor
    · simp only [processOne, hd, hd2, if_true]
      rw [preState_tiles_debug P d1 d2 st1 st2 item h, hpt]
    · simp only [processOne, hd, hd2, if_true]
      rw [hct]
  · have hd2 : ¬ splitDecision { P with debug := d2 } cz cx cy item.z item.x item.y
        (preTile { P with debug := d2 } st2 item) = true := by rw [← hdec]; exact hd
    simp only [Bool.not_eq_true] at hd hd2
    constructor
    · simp only [processOne, hd, hd2, Bool.false_eq_true, if_false]
      rw [preState_tiles_debug P d1 d2 st1 st2 item h, hpt]
    · simp only [processOne, hd, hd2, Bool.false_eq_true, if_false]

theorem splitLoop_tiles_debug (P : Params) (d1 d2 : Bool) (cz cx cy : ℕ) :
    ∀ (fuel : ℕ) (st1 st2 : VTState) (stack : List StackItem), st1.tiles = st2.tiles →
      (splitLoop { P with debug := d1 } cz cx cy fuel st1 stack).tiles =
        (splitLoop { P with debug := d2 } cz cx cy fuel st2 stack).tiles := by
  intro fuel
  induction fuel with
  | zero =>
    intro st1 st2 stack h
    simpa [splitLoop] using h
  | succ n ih =>
    intro st1 st2 stack h
    cases stack with
    | nil => simpa [splitLoop] using h
    | cons item rest =>
      simp only [splitLoop]
      obtain ⟨h1, h2⟩ := processOne_debug P d1 d2 cz cx cy st1 st2 item h
      rw [h2]
      exact ih _ _ _ h1

theorem finishGet_debug (st1 st2 : VTState) (id : ℕ) (h : st1.tiles = st2.tiles) :
    (finishGet st1 id).2 = (finishGet st2 id).2 ∧
    (finishGet st1 id).1.tiles = (finishGet st2 id).1.tiles := by
  dsimp only [finishGet]
  rw [h]
  exact ⟨rfl, rfl⟩

theorem getTile_debug (P : Params) (d1 d2 : Bool) (fuel : ℕ) (st1 st2 : VTState)
    (z x y : ℕ) (h : st1.tiles = st2.tiles) :
    ((getTile { P with debug := d1 } fuel st1 z x y).toOption.map (fun r => r.2) =
      (getTile { P with debug := d2 } fuel st2 z x y).toOption.map (fun r => r.2)) ∧
    ((getTile { P with debug := d1 } fuel st1 z x y).toOption.map (fun r => r.1.tiles) =
      (getTile { P with debug := d2 } fuel st2 z x y).toOption.map (fun r => r.1.tiles)) := by
  dsimp only [getTile]
  rcases hm : lookupA st1.tiles (toID z x y) with _ | t
  · have hm2 : lookupA st2.tiles (toID z x y) = none := by rw [← h]; exact hm
    simp only [hm, hm2]
    have hwalk : ancestorWalk st1.tiles z x y = ancestorWalk st2.tiles z x y := by rw [h]
    rcases hw : ancestorWalk st2.tiles z x y with _ | w
    · rw [hwalk, hw]
      exact ⟨rfl, rfl⟩
    · obtain ⟨z0, x0, y0⟩ := w
      rw [hwalk, hw]
      simp only []
      rcases hp : lookupA st2.tiles (toID z0 x0 y0) with _ | parent
      · have hp1 : lookupA st1.tiles (toID z0 x0 y0) = none := by rw [h]; exact hp
        simp only [hp, hp1]
        constructor <;> trivial
      · have hp1 : lookupA st1.tiles (toID z0 x0 y0) = some parent := by rw [h]; exact hp
        simp only [hp, hp1]
        by_cases h1 : parent.source.isEmpty = true
        · simp only [h1, if_true]
          obtain ⟨g1, g2⟩ := finishGet_debug st1 st2 (toID z x y) h
          exact ⟨congrArg some g1, congrArg some g2⟩
        · simp only [h1, Bool.false_eq_true, if_false]
          by_cases h2 : isClippedSquare parent.features extentQ bufferQ = some true
          · simp only [h2, if_pos, if_true]
            constructor
            · rfl
            · simp only [h]
              rfl
          · simp only [h2, if_false]
            have hsplit : (splitTile { P with debug := d1 } fuel st1 parent.source
                z0 x0 y0 z x y).tiles =
                (splitTile { P with debug := d2 } fuel st2 parent.source z0 x0 y0 z x y).tiles := by
              dsimp only [splitTile]
              exact splitLoop_tiles_debug P d1 d2 z x y fuel st1 st2 _ h
            obtain ⟨g1, g2⟩ := finishGet_debug
              (splitTile { P with debug := d1 } fuel st1 parent.source z0 x0 y0 z x y)
              (splitTile { P with debug := d2 } fuel st2 parent.source z0 x0 y0 z x y)
              (toID z x y) hsplit
            exact ⟨congrArg some g1, congrArg some g2⟩
  · have hm2 : lookupA st2.tiles (toID z x y) = some t := by rw [← h]; exact hm
    simp only [hm, hm2]
    constructor
    · rfl
    · simp only [h]
      rfl

/-- C10: disabling debug does not alter tile contents: the builder run
with debug on and with debug off from the same inputs produce identical
tile indexes (the flag only guards the stats and total counters and the
diagnostic prints), and getTile answers every query with an identical tile
and an identical resulting tile index. -/
theorem c10_debug_no_effect :
    (∀ (P : Params) (cz cx cy fuel : ℕ) (st : VTState) (stack : List StackItem),
      (splitLoop { P with debug := true } cz cx cy fuel st stack).tiles =
        (splitLoop { P with debug := false } cz cx cy fuel st stack).tiles) ∧
    (∀ (P : Params) (features : List ProjectedFeature) (fuel : ℕ),
      (build { P with debug := true } features fuel).tiles =
        (build { P with debug := false } features fuel).tiles) ∧
    (∀ (P : Params) (fuel : ℕ) (st : VTState) (z x y : ℕ),
      (getTile { P with debug := true } fuel st z x y).toOption.map (fun r => r.2) =
        (getTile { P with debug := false } fuel st z x y).toOption.map (fun r => r.2) ∧
      (getTile { P with debug := true } fuel st z x y).toOption.map (fun r => r.1.tiles) =
        (getTile { P with debug := false } fuel st z x y).toOption.map (fun r => r.1.tiles)) := by
  refine ⟨?_, ?_, ?_⟩
  · intro P cz cx cy fuel st stack
    exact splitLoop_tiles_debug P true false cz cx cy fuel st st stack rfl
  · intro P features fuel
    dsimp only [build, splitTile]
    exact splitLoop_tiles_debug P true false 0 0 0 fuel _ _ _ rfl
  · intro P fuel st z x y
    exact getTile_debug P true false fuel st st z x y rfl

theorem transformTile_sentinel : transformTile sentinelTile extentQ = sentinelTile := rfl

/-- C5 (amended): when the queried key is still absent after the
drill-down attempt (no drill-down because the found parent has empty
source, or a drill-down that did not materialize the key), getTile stores
under the key toID(z,x,y) and returns the transformed value-initialized
sentinel tile; the sentinel is the same fixed empty tile for every query -
its stored coordinate fields are the defaults, it does not carry the
queried (z,x,y) (see the counterexample) - and a repeated getTile call for
the same coordinates returns the very same sentinel value and leaves the
state unchanged. -/
theorem c5_sentinel_tile (P : Params) (fuel : ℕ) (st : VTState) (z x y z0 x0 y0 : ℕ)
    (parent : Tile)
    (habs : lookupA st.tiles (toID z x y) = none)
    (hwalk : ancestorWalk st.tiles z x y = some (z0, x0, y0))
    (hpar : lookupA st.tiles (toID z0 x0 y0) = some parent) :
    (parent.source.isEmpty = true →
      getTile P fuel st z x y =
        Except.ok ({ st with tiles := insertA st.tiles (toID z x y) sentinelTile },
          sentinelTile)) ∧
    (parent.source.isEmpty = false →
      ¬ isClippedSquare parent.features extentQ bufferQ = some true →
      lookupA (splitTile P fuel st parent.source z0 x0 y0 z x y).tiles (toID z x y) = none →
      getTile P fuel st z x y =
        Except.ok ({ splitTile P fuel st parent.source z0 x0 y0 z x y with
            tiles := insertA (splitTile P fuel st parent.source z0 x0 y0 z x y).tiles
              (toID z x y) sentinelTile }, sentinelTile)) ∧
    (∀ st2 : VTState, lookupA st2.tiles (toID z x y) = some sentinelTile →
      getTile P fuel st2 z x y = Except.ok (st2, sentinelTile)) := by
  refine ⟨?_, ?_, ?_⟩
  · intro hsrc
    dsimp only [getTile]
    simp only [habs, hwalk, hpar, hsrc, if_true]
    dsimp only [finishGet]
    rw [habs]
    rfl
  · intro hsrc hclip habs2
    dsimp only [getTile]
    simp only [habs, hwalk, hpar, hsrc, Bool.false_eq_true, if_false, hclip]
    dsimp only [finishGet]
    rw [habs2]
    rfl
  · intro st2 hst2
    dsimp only [getTile]
    simp only [hst2]
    rw [transformTile_sentinel, insertA_self st2.tiles (toID z x y) sentinelTile hst2]

/-- C5 counterexample: on the empty-input pyramid, getTile(1, 1, 1) takes
the sentinel path, but the sentinel does not carry the queried
coordinates: its stored z2, tx, ty are the value-initialized defaults
(0, 0, 0), while the claim requires tx = 1 (and ty = 1, z2 = 2) for this
query. -/
theorem c5_counterexample :
    ((getTile P0 4 (build P0 [] 4) 1 1 1).toOption.map
      (fun r => (r.2.z2, r.2.tx, r.2.ty))) = some (0, 0, 0) ∧ (1 : ℕ) ≠ 0 :=
  ⟨by decide, by decide⟩

theorem c5_sentinel_tile_witness :
    getTile P0 4 (build P0 [] 4) 1 1 1 =
      Except.ok ({ build P0 [] 4 with
        tiles := insertA (build P0 [] 4).tiles (toID 1 1 1) sentinelTile },
        sentinelTile) :=
  (c5_sentinel_tile P0 4 (build P0 [] 4) 1 1 1 0 0 0 rootP0 (by decide) (by decide)
    (by decide)).1 (by decide)

/-- C6: transformPoint maps a normalized point to
(round(extent * (x * 2^z - tx)), round(extent * (y * 2^z - ty))) with no
clamping, stated over the embedded exact arithmetic with the
half-away-from-zero rounding of std::round; and on scenario S1 - one
point feature at normalized (1/2, 1/2), extent 4096 - the z = 0 tile
returned by getTile holds exactly one Point feature whose tile geometry is
the single TilePoint (2048, 2048). -/
theorem c6_transformPoint_formula_and_scenario :
    (∀ (p : ProjectedPoint) (z2 tx ty : ℕ),
      transformPoint p extentQ z2 tx ty =
        ⟨(extentQ * (p.x * Frac.ofInt (z2 : ℤ) - Frac.ofInt (tx : ℤ))).round,
         (extentQ * (p.y * Frac.ofInt (z2 : ℤ) - Frac.ofInt (ty : ℤ))).round⟩) ∧
    ((getTile P0 4 (build P0 [pointHalf] 4) 0 0 0).toOption.map
        (fun r => r.2.features.map (fun f => (f.type, f.tileGeometry.map tileGeomCoords)))
      = some [(FeatureType.point, [[(2048, 2048)]])]) :=
  ⟨fun _ _ _ _ => rfl, by decide⟩

end GeoVT
